import Mathlib

/-!
Verification of the JazzArchitect harmony-generation core.

This file is a shallow embedding, in Lean 4, of the C++ sources of the
JazzArchitect repository (Source/Core, Source/Grammar, Source/Style,
Source/Substitution, Source/VoiceLeading, Source/MIDI).  Pure C++
functions become Lean functions; `float` arithmetic on rule weights and
voice-leading costs is embedded as exact rational arithmetic (all costs
are small integer sums, represented exactly by `float`); the
process-global `std::mt19937` generators that the C++ code consults are
made explicit as draw streams `Nat → ℚ` (one rational per
`uniform_real_distribution` call) together with a counter that is
threaded through in call order.

Chords are embedded as root (a pitch class, `Fin 12`, mirroring the
`PitchClass` class invariant `value ∈ [0,12)`) plus quality: none of the
embedded code paths (guide tones `third`/`seventh`, the substitution
rules, the optimizer, the generation pipeline) ever reads a
`ChordSymbol`'s extensions, alterations or slash bass, so those fields
are omitted.
-/

namespace JazzArchitect

/-- Pitch class 0–11 (C = 0), the `PitchClass` value with its invariant. -/
abbrev PitchClass := Fin 12

/-- `PitchClass::transpose`: add semitones modulo 12. -/
def PitchClass.transpose (p : PitchClass) (semitones : Nat) : PitchClass :=
  ⟨(p.val + semitones) % 12, Nat.mod_lt _ (by decide)⟩

/-- `ChordQuality` enumeration (Source/Core/ChordQuality.h). -/
inductive ChordQuality where
  | MAJ7 | MIN7 | DOM7 | HDIM7 | DIM7 | AUG
  | MIN_MAJ7 | MAJ6 | MIN6 | SUS4 | SUS2
  deriving DecidableEq, Repr

/-- `qualityIntervals`: semitone offsets from the root for each quality. -/
def qualityIntervals : ChordQuality → List Nat
  | .MAJ7 => [0, 4, 7, 11]
  | .MIN7 => [0, 3, 7, 10]
  | .DOM7 => [0, 4, 7, 10]
  | .HDIM7 => [0, 3, 6, 10]
  | .DIM7 => [0, 3, 6, 9]
  | .AUG => [0, 4, 8]
  | .MIN_MAJ7 => [0, 3, 7, 11]
  | .MAJ6 => [0, 4, 7, 9]
  | .MIN6 => [0, 3, 7, 9]
  | .SUS4 => [0, 5, 7, 10]
  | .SUS2 => [0, 2, 7, 10]

/-- `ChordSymbol`: root and quality (see the file header for why
extensions/alterations/bass are omitted). -/
structure ChordSymbol where
  root : PitchClass
  quality : ChordQuality
  deriving DecidableEq, Repr

/-- `ChordSymbol::third`: `intervals.size() > 1 ? intervals[1] : 4`. -/
def ChordSymbol.third (c : ChordSymbol) : PitchClass :=
  c.root.transpose ((qualityIntervals c.quality).getD 1 4)

/-- `ChordSymbol::seventh`: `intervals[3]`, defaulting to 10 when the
quality has fewer than four chord tones. -/
def ChordSymbol.seventh (c : ChordSymbol) : PitchClass :=
  c.root.transpose ((qualityIntervals c.quality).getD 3 10)

/-- `minInterval`: minimum circular semitone distance (0–6). -/
def minInterval (pc1 pc2 : PitchClass) : Nat :=
  min ((pc2.val + 12 - pc1.val) % 12) ((pc1.val + 12 - pc2.val) % 12)

/-- `voiceLeadingCost` (Source/MIDI/MIDIImporter.h): the lesser of the
straight pairing (3rd→3rd, 7th→7th) and the voice-exchange pairing
(3rd→7th, 7th→3rd), each the sum of the two `minInterval` distances. -/
def voiceLeadingCost (chord1 chord2 : ChordSymbol) : ℚ :=
  min ((minInterval chord1.third chord2.third
        + minInterval chord1.seventh chord2.seventh : Nat) : ℚ)
      ((minInterval chord1.third chord2.seventh
        + minInterval chord1.seventh chord2.third : Nat) : ℚ)

/-- `progressionVoiceLeadingCost`: sum of pairwise costs over consecutive
chords (0 for fewer than two chords). -/
def progressionVoiceLeadingCost : List ChordSymbol → ℚ
  | [] => 0
  | [_] => 0
  | a :: b :: rest => voiceLeadingCost a b + progressionVoiceLeadingCost (b :: rest)

namespace TritoneSubstitution

/-- `TritoneSubstitution::isDominant`. -/
def isDominant (chord : ChordSymbol) : Bool :=
  chord.quality = ChordQuality.DOM7

/-- `TritoneSubstitution::substitute`: transpose the root of a dominant
chord by a tritone; other qualities are returned unchanged. -/
def substitute (chord : ChordSymbol) : ChordSymbol :=
  if isDominant chord then
    { root := chord.root.transpose 6, quality := chord.quality }
  else chord

end TritoneSubstitution

namespace VoiceLeadingOptimizer

/-- One scan of `VoiceLeadingOptimizer::optimize`'s inner `for` loop,
starting at index `i`: find the first dominant chord whose tritone
substitution strictly lowers the total progression cost, returning the
updated progression, or `none` when a full scan finds no improvement. -/
def findImprove (cur : List ChordSymbol) (cost : ℚ) (i : Nat) :
    Option (List ChordSymbol) :=
  if h : i < cur.length then
    let chord := cur.get ⟨i, h⟩
    if TritoneSubstitution.isDominant chord then
      let test := cur.set i (TritoneSubstitution.substitute chord)
      if progressionVoiceLeadingCost test < cost then some test
      else findImprove cur cost (i + 1)
    else findImprove cur cost (i + 1)
  else none
termination_by cur.length - i

/-- The outer iteration loop of `VoiceLeadingOptimizer::optimize`:
`cost` is the maintained `currentCost`; an accepted substitution restarts
the scan, a scan without improvement ends the loop. -/
def optimizeLoop : Nat → List ChordSymbol → ℚ → List ChordSymbol
  | 0, cur, _ => cur
  | iter + 1, cur, cost =>
    match findImprove cur cost 0 with
    | some next => optimizeLoop iter next (progressionVoiceLeadingCost next)
    | none => cur

/-- `VoiceLeadingOptimizer::optimize` (greedy first-improvement local
search over tritone substitutions, bounded by `maxIterations`). -/
def optimize (chords : List ChordSymbol) (maxIterations : Nat) :
    List ChordSymbol :=
  optimizeLoop maxIterations chords (progressionVoiceLeadingCost chords)

end VoiceLeadingOptimizer

/-- A successful `findImprove` strictly lowers the progression cost below
the maintained current cost. -/
theorem findImprove_cost_lt (cur : List ChordSymbol) (cost : ℚ) :
    ∀ (i : Nat) (t : List ChordSymbol),
      VoiceLeadingOptimizer.findImprove cur cost i = some t →
      progressionVoiceLeadingCost t < cost := by
  have key : ∀ (n i : Nat) (t : List ChordSymbol), cur.length - i ≤ n →
      VoiceLeadingOptimizer.findImprove cur cost i = some t →
      progressionVoiceLeadingCost t < cost := by
    intro n
    induction n with
    | zero =>
      intro i t hn ht
      rw [VoiceLeadingOptimizer.findImprove, dif_neg (by omega)] at ht
      exact absurd ht (by simp)
    | succ n ih =>
      intro i t hn ht
      rw [VoiceLeadingOptimizer.findImprove] at ht
      by_cases h1 : i < cur.length
      · rw [dif_pos h1] at ht
        by_cases h2 : TritoneSubstitution.isDominant (cur.get ⟨i, h1⟩)
        · rw [if_pos h2] at ht
          by_cases h3 : progressionVoiceLeadingCost
              (cur.set i (TritoneSubstitution.substitute (cur.get ⟨i, h1⟩))) < cost
          · rw [if_pos h3] at ht
            cases ht
            exact h3
          · rw [if_neg h3] at ht
            exact ih (i + 1) t (by omega) ht
        · rw [if_neg h2] at ht
          exact ih (i + 1) t (by omega) ht
      · rw [dif_neg h1] at ht
        exact absurd ht (by simp)
  intro i t ht
  exact key (cur.length - i) i t le_rfl ht

/-- A successful `findImprove` replaces exactly one position, which held
a dominant chord, by that chord’s tritone substitute. -/
theorem findImprove_shape (cur : List ChordSymbol) (cost : ℚ) :
    ∀ (i : Nat) (t : List ChordSymbol),
      VoiceLeadingOptimizer.findImprove cur cost i = some t →
      ∃ j, ∃ hj : j < cur.length,
        (cur.get ⟨j, hj⟩).quality = ChordQuality.DOM7 ∧
        t = cur.set j (TritoneSubstitution.substitute (cur.get ⟨j, hj⟩)) := by
  have key : ∀ (n i : Nat) (t : List ChordSymbol), cur.length - i ≤ n →
      VoiceLeadingOptimizer.findImprove cur cost i = some t →
      ∃ j, ∃ hj : j < cur.length,
        (cur.get ⟨j, hj⟩).quality = ChordQuality.DOM7 ∧
        t = cur.set j (TritoneSubstitution.substitute (cur.get ⟨j, hj⟩)) := by
    intro n
    induction n with
    | zero =>
      intro i t hn ht
      rw [VoiceLeadingOptimizer.findImprove, dif_neg (by omega)] at ht
      exact absurd ht (by simp)
    | succ n ih =>
      intro i t hn ht
      rw [VoiceLeadingOptimizer.findImprove] at ht
      by_cases h1 : i < cur.length
      · rw [dif_pos h1] at ht
        by_cases h2 : TritoneSubstitution.isDominant (cur.get ⟨i, h1⟩)
        · rw [if_pos h2] at ht
          by_cases h3 : progressionVoiceLeadingCost
              (cur.set i (TritoneSubstitution.substitute (cur.get ⟨i, h1⟩))) < cost
          · rw [if_pos h3] at ht
            cases ht
            refine ⟨i, h1, ?_, rfl⟩
            simpa [TritoneSubstitution.isDominant] using h2
          · rw [if_neg h3] at ht
            exact ih (i + 1) t (by omega) ht
        · rw [if_neg h2] at ht
          exact ih (i + 1) t (by omega) ht
      · rw [dif_neg h1] at ht
        exact absurd ht (by simp)
  intro i t ht
  exact key (cur.length - i) i t le_rfl ht

/-- The optimizer loop never raises the maintained cost. -/
theorem optimizeLoop_cost_le (iter : Nat) :
    ∀ (cur : List ChordSymbol) (cost : ℚ),
      progressionVoiceLeadingCost cur ≤ cost →
      progressionVoiceLeadingCost (VoiceLeadingOptimizer.optimizeLoop iter cur cost)
        ≤ cost := by
  induction iter with
  | zero => intro cur cost h; simpa [VoiceLeadingOptimizer.optimizeLoop] using h
  | succ n ih =>
    intro cur cost h
    rw [VoiceLeadingOptimizer.optimizeLoop]
    cases hfind : VoiceLeadingOptimizer.findImprove cur cost 0 with
    | none => simpa using h
    | some next =>
      simp only []
      exact le_of_lt (lt_of_le_of_lt (ih next _ le_rfl)
        (findImprove_cost_lt cur cost 0 next hfind))

/-- Concrete chords used by the scenario theorems. -/
def chDm7 : ChordSymbol := ⟨2, ChordQuality.MIN7⟩

def chG7 : ChordSymbol := ⟨7, ChordQuality.DOM7⟩

def chDb7 : ChordSymbol := ⟨1, ChordQuality.DOM7⟩

def chCmaj7 : ChordSymbol := ⟨0, ChordQuality.MAJ7⟩

def chBb7 : ChordSymbol := ⟨10, ChordQuality.DOM7⟩

def chB7 : ChordSymbol := ⟨11, ChordQuality.DOM7⟩

def chEmaj7 : ChordSymbol := ⟨4, ChordQuality.MAJ7⟩

def chEb7 : ChordSymbol := ⟨3, ChordQuality.DOM7⟩

def chAbmaj7 : ChordSymbol := ⟨8, ChordQuality.MAJ7⟩

/-- C4 (amended): `voiceLeadingCost` is nonnegative, and is zero exactly
when at least one of the two guide-tone pairings — straight
(3rd→3rd, 7th→7th) or voice exchange (3rd→7th, 7th→3rd) — is unison,
i.e. both of its `minInterval` distances vanish. -/
theorem voiceLeadingCost_nonneg_and_zero_iff (A B : ChordSymbol) :
    0 ≤ voiceLeadingCost A B ∧
    (voiceLeadingCost A B = 0 ↔
      (minInterval A.third B.third = 0 ∧ minInterval A.seventh B.seventh = 0) ∨
      (minInterval A.third B.seventh = 0 ∧ minInterval A.seventh B.third = 0)) := by
  unfold voiceLeadingCost
  constructor
  · exact le_min (by positivity) (by positivity)
  · rw [← Nat.cast_min]
    rw [show ((min (minInterval A.third B.third + minInterval A.seventh B.seventh)
        (minInterval A.third B.seventh + minInterval A.seventh B.third) : Nat) : ℚ) = 0
        ↔ min (minInterval A.third B.third + minInterval A.seventh B.seventh)
            (minInterval A.third B.seventh + minInterval A.seventh B.third) = 0 by
      norm_cast]
    omega

/-- C4 counterexample: at `A = B = C-major-seventh` the cost is zero
(the straight pairing is unison) although the cross distances
3rd→7th and 7th→3rd are not zero, so the claim's "both pairings unison"
characterisation of the zero set is false. -/
theorem voiceLeadingCost_zero_claim_false :
    ¬ (voiceLeadingCost chCmaj7 chCmaj7 = 0 ↔
        (minInterval chCmaj7.third chCmaj7.third = 0 ∧
         minInterval chCmaj7.seventh chCmaj7.seventh = 0 ∧
         minInterval chCmaj7.third chCmaj7.seventh = 0 ∧
         minInterval chCmaj7.seventh chCmaj7.third = 0)) := by
  intro h
  have h0 : voiceLeadingCost chCmaj7 chCmaj7 = 0 := by
    unfold voiceLeadingCost chCmaj7 minInterval ChordSymbol.third ChordSymbol.seventh
      PitchClass.transpose qualityIntervals
    norm_num
  have := h.mp h0
  revert this
  decide

/-- Applying the single-chord tritone substitution twice to a dominant
chord is the identity: the root moves by 6 + 6 = 12 ≡ 0 semitones. -/
theorem substitute_twice (c : ChordSymbol) (h : c.quality = ChordQuality.DOM7) :
    TritoneSubstitution.substitute (TritoneSubstitution.substitute c) = c := by
  obtain ⟨⟨r, hr⟩, q⟩ := c
  cases h
  simp only [TritoneSubstitution.substitute, TritoneSubstitution.isDominant,
    PitchClass.transpose, decide_True, if_pos]
  simp only [ChordSymbol.mk.injEq, Fin.mk.injEq, and_true]
  omega

/-- C6: for every dominant-seventh chord, applying
`TritoneSubstitution::substitute` twice yields a chord with the original
root and the original quality. -/
theorem tritone_substitute_involution (c : ChordSymbol)
    (h : c.quality = ChordQuality.DOM7) :
    (TritoneSubstitution.substitute (TritoneSubstitution.substitute c)).root
        = c.root ∧
    (TritoneSubstitution.substitute (TritoneSubstitution.substitute c)).quality
        = c.quality := by
  rw [substitute_twice c h]
  exact ⟨rfl, rfl⟩

/-- C6 witness: the double substitution at G7. -/
theorem tritone_substitute_involution_witness :
    (TritoneSubstitution.substitute (TritoneSubstitution.substitute chG7)).root
        = chG7.root ∧
    (TritoneSubstitution.substitute (TritoneSubstitution.substitute chG7)).quality
        = chG7.quality :=
  tritone_substitute_involution chG7 (by decide)

/-- C5: the total progression voice-leading cost of the optimizer's
output never exceeds the cost of its input, for every input and every
iteration bound. -/
theorem optimize_cost_monotone (chords : List ChordSymbol)
    (maxIterations : Nat) :
    progressionVoiceLeadingCost
        (VoiceLeadingOptimizer.optimize chords maxIterations)
      ≤ progressionVoiceLeadingCost chords :=
  optimizeLoop_cost_le maxIterations chords _ le_rfl

/-- The frame relation maintained by the optimizer: each position is the
input chord, or — only for dominant-seventh inputs — its tritone
substitute. -/
def frameRel (inp out : ChordSymbol) : Prop :=
  out = inp ∨ (inp.quality = ChordQuality.DOM7 ∧
    out = TritoneSubstitution.substitute inp)

/-- A dominant chord related to `inp` by `frameRel` stays related after
one more tritone substitution (the two states toggle). -/
theorem frameRel_substitute {inp out : ChordSymbol} (hR : frameRel inp out)
    (hdom : out.quality = ChordQuality.DOM7) :
    frameRel inp (TritoneSubstitution.substitute out) := by
  rcases hR with rfl | ⟨hq, rfl⟩
  · exact Or.inr ⟨hdom, rfl⟩
  · exact Or.inl (substitute_twice inp hq)

/-- `frameRel` is preserved by replacing one dominant position of the
current list with its tritone substitute. -/
theorem forall2_frameRel_set {l cur : List ChordSymbol}
    (h : List.Forall₂ frameRel l cur) (j : Nat) (hj : j < cur.length)
    (hdom : (cur.get ⟨j, hj⟩).quality = ChordQuality.DOM7) :
    List.Forall₂ frameRel l
      (cur.set j (TritoneSubstitution.substitute (cur.get ⟨j, hj⟩))) := by
  rw [List.forall₂_iff_get] at h ⊢
  obtain ⟨hlen, hget⟩ := h
  refine ⟨by simpa using hlen, ?_⟩
  intro i h1 h2
  have h2' : i < cur.length := by simpa using h2
  simp only [List.get_eq_getElem]
  rw [List.getElem_set]
  split
  · next hij =>
    subst hij
    exact frameRel_substitute (hget j h1 hj) hdom
  · exact hget i h1 h2'

/-- The optimizer loop preserves the frame relation to the original
input list. -/
theorem optimizeLoop_frame (iter : Nat) :
    ∀ (l cur : List ChordSymbol) (cost : ℚ),
      List.Forall₂ frameRel l cur →
      List.Forall₂ frameRel l (VoiceLeadingOptimizer.optimizeLoop iter cur cost) := by
  induction iter with
  | zero => intro l cur cost h; simpa [VoiceLeadingOptimizer.optimizeLoop] using h
  | succ n ih =>
    intro l cur cost h
    rw [VoiceLeadingOptimizer.optimizeLoop]
    cases hfind : VoiceLeadingOptimizer.findImprove cur cost 0 with
    | none => simpa using h
    | some next =>
      obtain ⟨j, hj, hdom, rfl⟩ := findImprove_shape cur cost 0 next hfind
      exact ih l _ _ (forall2_frameRel_set h j hj hdom)

/-- C10: `VoiceLeadingOptimizer::optimize` preserves the progression's
length, and at every position the output chord is either the input chord
unchanged or — only when that input chord is a dominant seventh — its
tritone substitute; chords of any other quality are never modified. -/
theorem optimize_frame (chords : List ChordSymbol) (maxIterations : Nat) :
    (VoiceLeadingOptimizer.optimize chords maxIterations).length
        = chords.length ∧
    List.Forall₂ frameRel chords
      (VoiceLeadingOptimizer.optimize chords maxIterations) := by
  have h := optimizeLoop_frame maxIterations chords chords
    (progressionVoiceLeadingCost chords)
    (List.forall₂_same.mpr (fun c _ => Or.inl rfl))
  exact ⟨(List.Forall₂.length_eq h).symm, h⟩

/-!
The three substitution classes each gate their transforms on a private
`shouldSubstitute(probability)`, which draws from a `static std::mt19937`
seeded from `std::random_device` and compares the draw against the
probability.  The embedding makes each class's draw stream an explicit
parameter `u : Nat → ℚ` (one value per `shouldSubstitute` call, consumed
in call order through a counter), with `uniform_real_distribution(0,1)`
draws lying in `[0,1)`.
-/

/-- `shouldSubstitute`: compare one RNG draw against the firing
probability. -/
def shouldSubstitute (draw probability : ℚ) : Bool :=
  draw < probability

/-- The all-zeros draw stream (every gated substitution fires for any
positive probability). -/
def zeroDraws : Nat → ℚ := fun _ => 0

/-- The all-ones draw stream (no gated substitution of probability ≤ 1
fires). -/
def oneDraws : Nat → ℚ := fun _ => 1

namespace BackdoorSubstitution

/-- `BackdoorSubstitution::isDominant`. -/
def isDominant (chord : ChordSymbol) : Bool :=
  chord.quality = ChordQuality.DOM7

/-- `BackdoorSubstitution::isTonic`: major-seventh or major-sixth. -/
def isTonic (chord : ChordSymbol) : Bool :=
  chord.quality = ChordQuality.MAJ7 ∨ chord.quality = ChordQuality.MAJ6

/-- `BackdoorSubstitution::createBackdoor`: the bVII7 of the tonic,
rooted 10 semitones above it. -/
def createBackdoor (tonicRoot : PitchClass) : ChordSymbol :=
  ⟨tonicRoot.transpose 10, ChordQuality.DOM7⟩

/-- `BackdoorSubstitution::canApplyBackdoor`: a dominant chord whose root
is the V (7 semitones above) of a following tonic-quality chord. -/
def canApplyBackdoor (chord nextChord : ChordSymbol) : Bool :=
  isDominant chord ∧
  chord.root.val = (nextChord.root.val + 7) % 12 ∧
  isTonic nextChord

/-- `BackdoorSubstitution::apply`: walk the progression; where the
backdoor precondition holds and the coin fires, replace the dominant by
`createBackdoor` of the following chord's root. -/
def apply (probability : ℚ) (u : Nat → ℚ) :
    List ChordSymbol → Nat → List ChordSymbol
  | [], _ => []
  | [chord], _ => [chord]
  | chord :: nextChord :: rest, c =>
    if canApplyBackdoor chord nextChord then
      if shouldSubstitute (u c) probability then
        createBackdoor nextChord.root :: apply probability u (nextChord :: rest) (c + 1)
      else chord :: apply probability u (nextChord :: rest) (c + 1)
    else chord :: apply probability u (nextChord :: rest) c

end BackdoorSubstitution

namespace TritoneSubstitution

/-- `TritoneSubstitution::apply`: for each dominant chord whose coin
fires, substitute only when the next chord's root lies a perfect fourth
or fifth (5 or 7 semitones) above. -/
def apply (probability : ℚ) (u : Nat → ℚ) :
    List ChordSymbol → Nat → List ChordSymbol
  | [], _ => []
  | chord :: rest, c =>
    if isDominant chord then
      if shouldSubstitute (u c) probability then
        (match rest with
         | [] => chord
         | next :: _ =>
           if (next.root.val + 12 - chord.root.val) % 12 = 5 ∨
              (next.root.val + 12 - chord.root.val) % 12 = 7 then
             substitute chord
           else chord) :: apply probability u rest (c + 1)
      else chord :: apply probability u rest (c + 1)
    else chord :: apply probability u rest c

end TritoneSubstitution

namespace ColtraneSubstitution

/-- `ColtraneSubstitution::substituteIiVI`: keep the ii, insert the
shortened Coltrane cycle (V7/III → III → V7/bVI → bVI), then the
original V and I. -/
def substituteIiVI (ii v i : ChordSymbol) : List ChordSymbol :=
  let tonicRoot := i.root
  let center2 := tonicRoot.transpose 4
  let center3 := tonicRoot.transpose 8
  [ii,
   ⟨center2.transpose 7, ChordQuality.DOM7⟩, ⟨center2, ChordQuality.MAJ7⟩,
   ⟨center3.transpose 7, ChordQuality.DOM7⟩, ⟨center3, ChordQuality.MAJ7⟩,
   v, i]

/-- `ColtraneSubstitution::isIiVI`: min7 / dom7 / maj7-or-maj6 with roots
at tonic+2 and tonic+7. -/
def isIiVI (c1 c2 c3 : ChordSymbol) : Bool :=
  c1.quality = ChordQuality.MIN7 ∧
  c2.quality = ChordQuality.DOM7 ∧
  (c3.quality = ChordQuality.MAJ7 ∨ c3.quality = ChordQuality.MAJ6) ∧
  c1.root.val = (c3.root.val + 2) % 12 ∧
  c2.root.val = (c3.root.val + 7) % 12

/-- `ColtraneSubstitution::apply`: whenever a three-chord window exists
the coin is drawn; on a fired coin and a ii–V–I match the window is
expanded and the scan skips past the consumed V and I. -/
def apply (probability : ℚ) (u : Nat → ℚ) :
    List ChordSymbol → Nat → List ChordSymbol
  | [], _ => []
  | chord :: rest@(next1 :: next2 :: rest2), c =>
    if shouldSubstitute (u c) probability then
      if isIiVI chord next1 next2 then
        substituteIiVI chord next1 next2 ++ apply probability u rest2 (c + 1)
      else chord :: apply probability u rest (c + 1)
    else chord :: apply probability u rest (c + 1)
  | chord :: rest, c => chord :: apply probability u rest c

end ColtraneSubstitution

/-- C8: on the window [G7, Cmaj7] with firing probability 1 (and any
in-range draws), backdoor substitution replaces G7 by Bb7 — a dominant
seventh rooted 10 semitones above C — and leaves the Cmaj7 unchanged. -/
theorem backdoor_g7_to_bb7 (u : Nat → ℚ) (hu : ∀ n, u n < 1) :
    BackdoorSubstitution.apply 1 u [chG7, chCmaj7] 0 = [chBb7, chCmaj7] := by
  have hcoin : shouldSubstitute (u 0) 1 = true := by
    simpa [shouldSubstitute] using hu 0
  simp [BackdoorSubstitution.apply, hcoin,
    show BackdoorSubstitution.canApplyBackdoor chG7 chCmaj7 = true from rfl,
    show BackdoorSubstitution.createBackdoor chCmaj7.root = chBb7 from rfl]

/-- C8 witness: the backdoor scenario at the all-zeros draw stream. -/
theorem backdoor_g7_to_bb7_witness :
    BackdoorSubstitution.apply 1 zeroDraws [chG7, chCmaj7] 0 = [chBb7, chCmaj7] :=
  backdoor_g7_to_bb7 zeroDraws (fun n => by norm_num [zeroDraws])

/-- C3 counterexample: the Coltrane expansion of the ii–V–I window
[Dm7, G7, Cmaj7] at firing probability 1 does not have six chords
(it has seven: the retained ii plus the six-chord cycle). -/
theorem coltrane_window_not_six :
    (ColtraneSubstitution.apply 1 zeroDraws [chDm7, chG7, chCmaj7] 0).length ≠ 6 := by
  have hcoin : shouldSubstitute (zeroDraws 0) 1 = true := by
    norm_num [shouldSubstitute, zeroDraws]
  simp [ColtraneSubstitution.apply, hcoin,
    show ColtraneSubstitution.isIiVI chDm7 chG7 chCmaj7 = true from rfl,
    show ColtraneSubstitution.substituteIiVI chDm7 chG7 chCmaj7 =
      [chDm7, chB7, chEmaj7, chEb7, chAbmaj7, chG7, chCmaj7] from rfl]

/-- C3 (amended): on the window [Dm7, G7, Cmaj7] with firing
probability 1, Coltrane substitution produces exactly seven chords —
the original Dm7 first, then B7, Emaj7, Eb7, Abmaj7, the original G7,
and the original Cmaj7 last. -/
theorem coltrane_window_expansion (u : Nat → ℚ) (hu : ∀ n, u n < 1) :
    ColtraneSubstitution.apply 1 u [chDm7, chG7, chCmaj7] 0 =
      [chDm7, chB7, chEmaj7, chEb7, chAbmaj7, chG7, chCmaj7] := by
  have hcoin : shouldSubstitute (u 0) 1 = true := by
    simpa [shouldSubstitute] using hu 0
  simp [ColtraneSubstitution.apply, hcoin,
    show ColtraneSubstitution.isIiVI chDm7 chG7 chCmaj7 = true from rfl,
    show ColtraneSubstitution.substituteIiVI chDm7 chG7 chCmaj7 =
      [chDm7, chB7, chEmaj7, chEb7, chAbmaj7, chG7, chCmaj7] from rfl]

/-- C3 witness: the Coltrane scenario at the all-zeros draw stream. -/
theorem coltrane_window_expansion_witness :
    ColtraneSubstitution.apply 1 zeroDraws [chDm7, chG7, chCmaj7] 0 =
      [chDm7, chB7, chEmaj7, chEb7, chAbmaj7, chG7, chCmaj7] :=
  coltrane_window_expansion zeroDraws (fun n => by norm_num [zeroDraws])

/-- `StyleVector` (Source/Style/StyleVector.h): the style parameters,
with `float` fields embedded as ℚ. -/
structure StyleVector where
  tritoneSubProb : ℚ
  backdoorProb : ℚ
  coltraneProb : ℚ
  iiVPreference : ℚ
  secondaryDomProb : ℚ
  modalInterchange : ℚ
  minorIvProb : ℚ
  chromaticApproach : ℚ
  diminishedApproach : ℚ
  dominantChainDepth : Nat
  prolongationDepth : Nat
  rhythmDensity : ℚ
  turnaroundProb : ℚ
  extensionLevel : ℚ
  alterationProb : ℚ

/-- `StylePresets::BEBOP()`. -/
def BEBOP : StyleVector where
  tritoneSubProb := 3/10
  backdoorProb := 3/20
  coltraneProb := 1/20
  iiVPreference := 9/10
  secondaryDomProb := 2/5
  modalInterchange := 1/5
  minorIvProb := 3/20
  chromaticApproach := 2/5
  diminishedApproach := 1/5
  dominantChainDepth := 4
  prolongationDepth := 2
  rhythmDensity := 4/5
  turnaroundProb := 3/5
  extensionLevel := 1/2
  alterationProb := 3/10

/-- `SubstitutionEngine::apply`: backdoor, then tritone, then Coltrane,
each gated by a style threshold, with each class's own draw stream. -/
def SubstitutionEngine.apply (style : StyleVector)
    (uBackdoor uTritone uColtrane : Nat → ℚ)
    (progression : List ChordSymbol) : List ChordSymbol :=
  let r1 := if (1 : ℚ)/5 < style.modalInterchange then
      BackdoorSubstitution.apply (style.modalInterchange * (3/10)) uBackdoor
        progression 0
    else progression
  let r2 := if (1 : ℚ)/10 < style.tritoneSubProb then
      TritoneSubstitution.apply style.tritoneSubProb uTritone r1 0
    else r1
  if 4 ≤ style.dominantChainDepth ∧ (2 : ℚ)/5 < style.chromaticApproach then
    ColtraneSubstitution.apply (style.chromaticApproach * (3/20)) uColtrane r2 0
  else r2

namespace StyleEngine

/-- The padding `while` loop of `StyleEngine::adjustLength`, with the
turnaround coin stream explicit.  One draw is consumed per iteration
(the C++ `&&` evaluates the draw first); an iteration appends either a
ii–V pair or a single tonic.  `fuel` bounds the loop: since every
iteration appends at least one chord, `target` iterations always
suffice, so calling with `fuel = target` agrees with the source's
unbounded loop. -/
def padLoop (key : PitchClass) (turnaroundProb : ℚ) (u : Nat → ℚ)
    (target : Nat) : Nat → List ChordSymbol → Nat → List ChordSymbol
  | 0, chords, _ => chords
  | fuel + 1, chords, c =>
    if chords.length < target then
      if u c < turnaroundProb ∧ chords.length < target - 1 then
        let l1 := chords ++ [⟨key.transpose 2, ChordQuality.MIN7⟩]
        let l2 := if l1.length < target then
            l1 ++ [⟨key.transpose 7, ChordQuality.DOM7⟩]
          else l1
        padLoop key turnaroundProb u target fuel l2 (c + 1)
      else
        padLoop key turnaroundProb u target fuel
          (chords ++ [⟨key, ChordQuality.MAJ7⟩]) (c + 1)
    else chords

/-- `StyleEngine::adjustLength`: truncate when at or above the target,
otherwise pad with turnarounds / repeated tonic and defensively
truncate. -/
def adjustLength (chords : List ChordSymbol) (target : Nat)
    (key : PitchClass) (turnaroundProb : ℚ) (u : Nat → ℚ) :
    List ChordSymbol :=
  if target ≤ chords.length then chords.take target
  else
    let r := padLoop key turnaroundProb u target target chords 0
    if target < r.length then r.take target else r

/-- `StyleEngine::generate`, with the derivation's raw chord sequence and
the four ambient draw streams explicit: adjust to the requested length,
run the substitution pipeline, optionally optimize, and clamp the length
from above. -/
def generate (style : StyleVector) (raw : List ChordSymbol)
    (uLen uBackdoor uTritone uColtrane : Nat → ℚ)
    (length : Nat) (key : PitchClass) : List ChordSymbol :=
  let chords := adjustLength raw length key style.turnaroundProb uLen
  let chords2 := SubstitutionEngine.apply style uBackdoor uTritone uColtrane chords
  let chords3 := if (1 : ℚ)/2 < style.extensionLevel then
      VoiceLeadingOptimizer.optimize chords2 50
    else chords2
  if length < chords3.length then chords3.take length else chords3

end StyleEngine

/-- The padding loop reaches the target length whenever its fuel covers
the remaining deficit. -/
theorem padLoop_length_ge (key : PitchClass) (tp : ℚ) (u : Nat → ℚ)
    (target : Nat) :
    ∀ (fuel : Nat) (chords : List ChordSymbol) (c : Nat),
      target ≤ fuel + chords.length →
      target ≤ (StyleEngine.padLoop key tp u target fuel chords c).length := by
  intro fuel
  induction fuel with
  | zero =>
    intro chords c h
    simpa [StyleEngine.padLoop] using h
  | succ n ih =>
    intro chords c h
    rw [StyleEngine.padLoop]
    by_cases h1 : chords.length < target
    · rw [if_pos h1]
      by_cases h2 : u c < tp ∧ chords.length < target - 1
      · rw [if_pos h2]
        refine ih _ (c + 1) ?_
        by_cases h3 : (chords ++ [(⟨key.transpose 2, ChordQuality.MIN7⟩ : ChordSymbol)]).length < target
        · rw [if_pos h3]
          simp only [List.length_append, List.length_cons, List.length_nil]
          omega
        · rw [if_neg h3]
          simp only [List.length_append, List.length_cons, List.length_nil]
          omega
      · rw [if_neg h2]
        refine ih _ (c + 1) ?_
        simp only [List.length_append, List.length_cons, List.length_nil]
        omega
    · rw [if_neg h1]
      omega

/-- `adjustLength` returns exactly the target number of chords. -/
theorem adjustLength_length (chords : List ChordSymbol) (target : Nat)
    (key : PitchClass) (tp : ℚ) (u : Nat → ℚ) :
    (StyleEngine.adjustLength chords target key tp u).length = target := by
  rw [StyleEngine.adjustLength]
  by_cases h : target ≤ chords.length
  · rw [if_pos h]
    simpa using h
  · rw [if_neg h]
    have hge : target ≤ (StyleEngine.padLoop key tp u target target chords 0).length :=
      padLoop_length_ge key tp u target target chords 0 (by omega)
    by_cases h2 : target < (StyleEngine.padLoop key tp u target target chords 0).length
    · rw [if_pos h2]
      simpa using le_of_lt h2
    · rw [if_neg h2]
      omega

/-- `BackdoorSubstitution::apply` never changes the number of chords. -/
theorem backdoor_apply_length (p : ℚ) (u : Nat → ℚ) :
    ∀ (l : List ChordSymbol) (c : Nat),
      (BackdoorSubstitution.apply p u l c).length = l.length := by
  intro l
  induction l with
  | nil => intro c; rfl
  | cons x rest ih =>
    intro c
    cases rest with
    | nil => rfl
    | cons y rest2 =>
      rw [BackdoorSubstitution.apply]
      split
      · split <;> simp [ih]
      · simp [ih]

/-- `TritoneSubstitution::apply` never changes the number of chords. -/
theorem tritone_apply_length (p : ℚ) (u : Nat → ℚ) :
    ∀ (l : List ChordSymbol) (c : Nat),
      (TritoneSubstitution.apply p u l c).length = l.length := by
  intro l
  induction l with
  | nil => intro c; rfl
  | cons x rest ih =>
    intro c
    rw [TritoneSubstitution.apply.eq_def]
    simp only
    split
    · split
      · split <;> simp [ih]
      · simp [ih]
    · simp [ih]

/-- `ColtraneSubstitution::apply` never shrinks the progression. -/
theorem coltrane_apply_length_ge (p : ℚ) (u : Nat → ℚ) :
    ∀ (n : Nat) (l : List ChordSymbol) (c : Nat), l.length ≤ n →
      l.length ≤ (ColtraneSubstitution.apply p u l c).length := by
  intro n
  induction n with
  | zero =>
    intro l c h
    have hl : l = [] := List.length_eq_zero.mp (by omega)
    subst hl
    simp [ColtraneSubstitution.apply]
  | succ n ih =>
    intro l c h
    match l with
    | [] => simp [ColtraneSubstitution.apply]
    | [x] =>
      have hx : ColtraneSubstitution.apply p u [x] c = [x] := by
        simp [ColtraneSubstitution.apply]
      simp [hx]
    | [x, y] =>
      have hx : ColtraneSubstitution.apply p u [x, y] c
          = x :: ColtraneSubstitution.apply p u [y] c := by
        simp [ColtraneSubstitution.apply]
      have h2 := ih [y] c (by simp at h ⊢; omega)
      simp only [hx, List.length_cons] at h2 ⊢
      omega
    | x :: y :: z :: rest2 =>
      rw [ColtraneSubstitution.apply]
      split
      · split
        · have h2 := ih rest2 (c + 1) (by simp at h ⊢; omega)
          simp only [ColtraneSubstitution.substituteIiVI, List.length_append,
            List.length_cons, List.length_nil]
          omega
        · have h2 := ih (y :: z :: rest2) (c + 1) (by simp at h ⊢; omega)
          simp only [List.length_cons] at h2 ⊢
          omega
      · have h2 := ih (y :: z :: rest2) (c + 1) (by simp at h ⊢; omega)
        simp only [List.length_cons] at h2 ⊢
        omega

/-- The optimizer loop never changes the number of chords. -/
theorem optimize_length (chords : List ChordSymbol) (maxIterations : Nat) :
    (VoiceLeadingOptimizer.optimize chords maxIterations).length
      = chords.length :=
  (List.Forall₂.length_eq (optimizeLoop_frame maxIterations chords chords
    (progressionVoiceLeadingCost chords)
    (List.forall₂_same.mpr (fun c _ => Or.inl rfl)))).symm

/-- The substitution pipeline never shrinks the progression. -/
theorem substitutionEngine_length_ge (style : StyleVector)
    (ub ut uc : Nat → ℚ) (progression : List ChordSymbol) :
    progression.length
      ≤ (SubstitutionEngine.apply style ub ut uc progression).length := by
  simp only [SubstitutionEngine.apply]
  have hb : (if (1 : ℚ)/5 < style.modalInterchange then
      BackdoorSubstitution.apply (style.modalInterchange * (3/10)) ub
        progression 0
    else progression).length = progression.length := by
    split
    · exact backdoor_apply_length _ _ progression 0
    · rfl
  have ht : (if (1 : ℚ)/10 < style.tritoneSubProb then
      TritoneSubstitution.apply style.tritoneSubProb ut
        (if (1 : ℚ)/5 < style.modalInterchange then
          BackdoorSubstitution.apply (style.modalInterchange * (3/10)) ub
            progression 0
        else progression) 0
    else
      (if (1 : ℚ)/5 < style.modalInterchange then
        BackdoorSubstitution.apply (style.modalInterchange * (3/10)) ub
          progression 0
      else progression)).length = progression.length := by
    split
    · rw [tritone_apply_length, hb]
    · exact hb
  split
  · exact le_trans (le_of_eq ht.symm)
      (coltrane_apply_length_ge _ _ _ _ 0 le_rfl)
  · exact le_of_eq ht.symm

/-- C2: for every requested length ≥ 1 and every key,
`StyleEngine::generate` returns exactly `length` chords — for any style,
any raw derivation output, and any outcomes of the gated
substitutions. -/
theorem generate_length (style : StyleVector) (raw : List ChordSymbol)
    (uLen ub ut uc : Nat → ℚ) (length : Nat) (key : PitchClass)
    (h : 1 ≤ length) :
    (StyleEngine.generate style raw uLen ub ut uc length key).length
      = length := by
  rw [StyleEngine.generate]
  have h1 : (StyleEngine.adjustLength raw length key style.turnaroundProb uLen).length
      = length := adjustLength_length raw length key style.turnaroundProb uLen
  have h2 : length ≤ (SubstitutionEngine.apply style ub ut uc
      (StyleEngine.adjustLength raw length key style.turnaroundProb uLen)).length := by
    calc length
        = _ := h1.symm
      _ ≤ _ := substitutionEngine_length_ge style ub ut uc _
  set c2 := SubstitutionEngine.apply style ub ut uc
      (StyleEngine.adjustLength raw length key style.turnaroundProb uLen) with hc2
  have h3 : length ≤ (if (1 : ℚ)/2 < style.extensionLevel then
      VoiceLeadingOptimizer.optimize c2 50 else c2).length := by
    split
    · rw [optimize_length]
      exact h2
    · exact h2
  set c3 := if (1 : ℚ)/2 < style.extensionLevel then
      VoiceLeadingOptimizer.optimize c2 50 else c2 with hc3
  by_cases h4 : length < c3.length
  · rw [if_pos h4]
    simpa using le_of_lt h4
  · rw [if_neg h4]
    omega

/-- C2 witness: the length contract at a concrete call. -/
theorem generate_length_witness :
    1 ≤ 4 ∧
    (StyleEngine.generate BEBOP [chG7] zeroDraws zeroDraws zeroDraws zeroDraws
      4 0).length = 4 :=
  ⟨by norm_num,
   generate_length BEBOP [chG7] zeroDraws zeroDraws zeroDraws zeroDraws 4 0
     (by norm_num)⟩

/-- C1: two runs of `StyleEngine::generate` with identical style, raw
derivation, requested length, key, and identical draws everywhere except
the stream of the `static std::mt19937` inside
`TritoneSubstitution::shouldSubstitute` (state the seeded interfaces do
not control) produce different chord sequences: the output is not a
function of (seed, style, key, length) alone. -/
theorem generate_ambient_rng_divergence :
    StyleEngine.generate BEBOP [chG7, chCmaj7] zeroDraws zeroDraws
      zeroDraws zeroDraws 2 0 ≠
    StyleEngine.generate BEBOP [chG7, chCmaj7] zeroDraws zeroDraws
      oneDraws zeroDraws 2 0 := by
  have e1 : StyleEngine.generate BEBOP [chG7, chCmaj7] zeroDraws zeroDraws
      zeroDraws zeroDraws 2 0 = [chDb7, chCmaj7] := by
    rw [StyleEngine.generate, StyleEngine.adjustLength]
    norm_num [BEBOP, SubstitutionEngine.apply, TritoneSubstitution.apply,
      TritoneSubstitution.isDominant, shouldSubstitute, zeroDraws,
      TritoneSubstitution.substitute, chG7, chCmaj7, chDb7,
      PitchClass.transpose]
    decide
  have e2 : StyleEngine.generate BEBOP [chG7, chCmaj7] zeroDraws zeroDraws
      oneDraws zeroDraws 2 0 = [chG7, chCmaj7] := by
    rw [StyleEngine.generate, StyleEngine.adjustLength]
    norm_num [BEBOP, SubstitutionEngine.apply, TritoneSubstitution.apply,
      TritoneSubstitution.isDominant, shouldSubstitute, oneDraws,
      chG7, chCmaj7]
  rw [e1, e2]
  decide

/-- `NonTerminal` (Source/Grammar/NonTerminal.h). -/
inductive NonTerminal where
  | S | T | D | SD | PROL | PREP | PHRASE
  deriving DecidableEq, Repr, Fintype

/-- `RuleType` (Source/Grammar/NonTerminal.h). -/
inductive RuleType where
  | PROLONGATION | PREPARATION | SUBSTITUTION | TERMINAL | STRUCTURAL
  deriving DecidableEq, Repr

/-- `NTSymbol`: a non-terminal with an optional key context
(`none` = inherit). -/
structure NTSymbol where
  nt : NonTerminal
  key : Option Nat
  deriving DecidableEq, Repr

/-- `TerminalSymbol`: scale-degree label, quality label, key-relative
flag. -/
structure TerminalSymbol where
  degree : String
  quality : String
  keyRelative : Bool
  deriving DecidableEq, Repr

/-- `Symbol = std::variant<NTSymbol, TerminalSymbol>`. -/
inductive Symbol where
  | nt (s : NTSymbol)
  | term (t : TerminalSymbol)
  deriving DecidableEq, Repr

/-- `GrammarRule` (probability clamping to [0,1] happens at the
construction and `setProb` sites; the base grammar below only uses
weights already in [0,1]). -/
structure GrammarRule where
  lhs : NonTerminal
  rhs : List Symbol
  prob : ℚ
  ruleType : RuleType
  name : String
  deriving DecidableEq, Repr

/-- `GrammarRule::setProb`'s clamp: `std::max(0.0f, std::min(1.0f, p))`. -/
def clamp01 (p : ℚ) : ℚ := max 0 (min 1 p)

namespace PCFG

/-- One non-terminal's pass of `PCFG::normalize`: when the total weight
is positive every rule's probability is set — through `setProb`'s clamp —
to its share of the total; otherwise the rule list is left unchanged. -/
def normalizeRules (rules : List GrammarRule) : List GrammarRule :=
  let total := (rules.map (fun r => r.prob)).sum
  if 0 < total then
    rules.map (fun r => { r with prob := clamp01 (r.prob / total) })
  else rules

/-- `PCFG::normalize`: the per-non-terminal rescaling applied to every
non-terminal's rule list (the `rules_` map is embedded as a function
from non-terminals to rule lists). -/
def normalize (g : NonTerminal → List GrammarRule) :
    NonTerminal → List GrammarRule :=
  fun nt => normalizeRules (g nt)

end PCFG

/-- The raw rule table built by `createBaseGrammar` (Source/Grammar,
before its final `normalize()` call), grouped by left-hand
non-terminal in `addRule` order. -/
def baseGrammarRules : NonTerminal → List GrammarRule
  | .S =>
    [⟨.S, [Symbol.nt ⟨.T, none⟩], 3/10, .STRUCTURAL, "single_phrase"⟩,
     ⟨.S, [Symbol.nt ⟨.T, none⟩, Symbol.nt ⟨.D, none⟩, Symbol.nt ⟨.T, none⟩],
       1/2, .STRUCTURAL, "tdt_form"⟩,
     ⟨.S, [Symbol.nt ⟨.T, none⟩, Symbol.nt ⟨.T, none⟩], 1/5, .STRUCTURAL,
       "tt_form"⟩]
  | .T =>
    [⟨.T, [Symbol.term ⟨"I", "maj7", true⟩], 3/10, .TERMINAL, "t_terminal"⟩,
     ⟨.T, [Symbol.nt ⟨.D, none⟩, Symbol.nt ⟨.T, none⟩], 7/20, .PREPARATION,
       "authentic_cadence"⟩,
     ⟨.T, [Symbol.nt ⟨.SD, none⟩, Symbol.nt ⟨.T, none⟩], 3/20, .PREPARATION,
       "plagal_cadence"⟩,
     ⟨.T, [Symbol.nt ⟨.T, none⟩, Symbol.nt ⟨.PROL, none⟩], 1/10,
       .PROLONGATION, "t_right_prolong"⟩,
     ⟨.T, [Symbol.nt ⟨.PROL, none⟩, Symbol.nt ⟨.T, none⟩], 1/10,
       .PROLONGATION, "t_left_prolong"⟩]
  | .D =>
    [⟨.D, [Symbol.term ⟨"V", "7", true⟩], 2/5, .TERMINAL, "d_terminal"⟩,
     ⟨.D, [Symbol.nt ⟨.PREP, none⟩, Symbol.nt ⟨.D, none⟩], 2/5, .PREPARATION,
       "ii_v"⟩,
     ⟨.D, [Symbol.nt ⟨.D, none⟩, Symbol.nt ⟨.PROL, none⟩], 1/10,
       .PROLONGATION, "d_prolong"⟩,
     ⟨.D, [Symbol.term ⟨"bII", "7", true⟩], 1/10, .SUBSTITUTION,
       "tritone_sub"⟩]
  | .SD =>
    [⟨.SD, [Symbol.term ⟨"IV", "maj7", true⟩], 1/2, .TERMINAL, "sd_iv"⟩,
     ⟨.SD, [Symbol.term ⟨"ii", "min7", true⟩], 3/10, .TERMINAL, "sd_ii"⟩,
     ⟨.SD, [Symbol.term ⟨"iv", "min7", true⟩], 1/5, .TERMINAL,
       "sd_borrowed_iv"⟩]
  | .PREP =>
    [⟨.PREP, [Symbol.term ⟨"ii", "min7", true⟩], 1/2, .TERMINAL, "prep_ii"⟩,
     ⟨.PREP, [Symbol.term ⟨"IV", "maj7", true⟩], 1/5, .TERMINAL, "prep_iv"⟩,
     ⟨.PREP, [Symbol.term ⟨"V/V", "7", true⟩], 3/20, .TERMINAL,
       "prep_secondary_dom"⟩,
     ⟨.PREP, [Symbol.nt ⟨.PREP, none⟩, Symbol.nt ⟨.PREP, none⟩], 3/20,
       .PROLONGATION, "prep_chain"⟩]
  | .PROL =>
    [⟨.PROL, [Symbol.term ⟨"iii", "min7", true⟩], 3/10, .TERMINAL,
       "prol_iii"⟩,
     ⟨.PROL, [Symbol.term ⟨"vi", "min7", true⟩], 2/5, .TERMINAL, "prol_vi"⟩,
     ⟨.PROL, [Symbol.term ⟨"I", "maj7", true⟩], 3/10, .TERMINAL, "prol_i"⟩]
  | .PHRASE => []

/-- `createBaseGrammar`: the raw table followed by `normalize()`. -/
def createBaseGrammar : NonTerminal → List GrammarRule :=
  PCFG.normalize baseGrammarRules

/-- Summing a list divided elementwise by `t` divides the sum by `t`. -/
theorem sum_map_div (l : List ℚ) (t : ℚ) :
    (l.map (fun x => x / t)).sum = l.sum / t := by
  induction l with
  | nil => simp
  | cons x rest ih => simp [ih, add_div]

/-- C7: after `PCFG::normalize()`, every non-terminal whose rules have a
positive total weight has weights summing to exactly 1 (the exact-
rational counterpart of "1.0 within floating-point tolerance"), and a
non-terminal whose rules have zero total weight keeps its rules
unchanged.  The hypothesis restates the constructor/`setProb` clamping
invariant that all stored weights are nonnegative. -/
theorem normalize_weights (g : NonTerminal → List GrammarRule)
    (h : ∀ nt : NonTerminal, ∀ r ∈ g nt, 0 ≤ r.prob) (nt : NonTerminal) :
    (0 < ((g nt).map (fun r => r.prob)).sum →
      ((PCFG.normalize g nt).map (fun r => r.prob)).sum = 1) ∧
    (((g nt).map (fun r => r.prob)).sum = 0 →
      PCFG.normalize g nt = g nt) := by
  constructor
  · intro hpos
    rw [PCFG.normalize, PCFG.normalizeRules]
    simp only [if_pos hpos]
    rw [List.map_map]
    have hmap : (g nt).map ((fun r : GrammarRule => r.prob) ∘
        (fun r : GrammarRule => { r with prob := clamp01 (r.prob /
          (((g nt).map (fun r => r.prob)).sum)) })) =
        (g nt).map (fun r : GrammarRule => r.prob /
          (((g nt).map (fun r => r.prob)).sum)) := by
      refine List.map_congr_left ?_
      intro r hr
      have h0 : 0 ≤ r.prob := h nt r hr
      have hle : r.prob ≤ ((g nt).map (fun r => r.prob)).sum := by
        refine List.single_le_sum ?_ _ (List.mem_map_of_mem _ hr)
        intro q hq
        obtain ⟨s, hs, rfl⟩ := List.mem_map.mp hq
        exact h nt s hs
      have h1 : 0 ≤ r.prob / ((g nt).map (fun r => r.prob)).sum :=
        div_nonneg h0 (le_of_lt hpos)
      have h2 : r.prob / ((g nt).map (fun r => r.prob)).sum ≤ 1 :=
        (div_le_one hpos).mpr hle
      simp only [Function.comp]
      rw [clamp01, min_eq_right h2, max_eq_right h1]
    rw [hmap, show (g nt).map (fun r : GrammarRule => r.prob /
        (((g nt).map (fun r => r.prob)).sum)) =
        ((g nt).map (fun r => r.prob)).map (fun x => x /
          (((g nt).map (fun r => r.prob)).sum)) by rw [List.map_map]; rfl]
    rw [sum_map_div]
    exact div_self (ne_of_gt hpos)
  · intro hzero
    rw [PCFG.normalize, PCFG.normalizeRules]
    simp [hzero]

/-- C7 witness: normalizing the raw base-grammar rules for the Dominant
non-terminal (total weight 0.4 + 0.4 + 0.1 + 0.1 = 1 > 0) yields weights
summing to 1. -/
theorem normalize_weights_witness :
    ((PCFG.normalize baseGrammarRules NonTerminal.D).map
      (fun r => r.prob)).sum = 1 :=
  (normalize_weights baseGrammarRules (by
    intro nt r hr
    cases nt <;> fin_cases hr <;> norm_num) NonTerminal.D).1 (by
    norm_num [baseGrammarRules])

/-- `degreeToSemitones`: the fixed Roman-numeral lookup table
(unrecognised degrees fall back to 0). -/
def degreeToSemitones (degree : String) : Nat :=
  if degree = "I" then 0 else if degree = "bII" then 1
  else if degree = "II" then 2 else if degree = "bIII" then 3
  else if degree = "III" then 4 else if degree = "IV" then 5
  else if degree = "#IV" then 6 else if degree = "V" then 7
  else if degree = "bVI" then 8 else if degree = "VI" then 9
  else if degree = "bVII" then 10 else if degree = "VII" then 11
  else if degree = "i" then 0 else if degree = "ii" then 2
  else if degree = "iii" then 4 else if degree = "iv" then 5
  else if degree = "v" then 7 else if degree = "vi" then 9
  else if degree = "vii" then 11
  else if degree = "V/V" then 2 else if degree = "V/ii" then 9
  else if degree = "V/IV" then 0
  else 0

/-- `degree.find("V/") != npos`: some position starts the two-character
pattern. -/
def hasVSlash : List Char → Bool
  | 'V' :: '/' :: _ => true
  | _ :: rest => hasVSlash rest
  | [] => false

/-- `degree.substr(slashPos + 1)` for the first '/' of the label. -/
def afterFirstSlash : List Char → List Char
  | '/' :: rest => rest
  | _ :: rest => afterFirstSlash rest
  | [] => []

/-- `HarmonyGenerator::getDefaultTerminal`. -/
def getDefaultTerminal : NonTerminal → TerminalSymbol
  | .T => ⟨"I", "maj7", true⟩
  | .D => ⟨"V", "7", true⟩
  | .SD => ⟨"IV", "maj7", true⟩
  | .PREP => ⟨"ii", "min7", true⟩
  | .PROL => ⟨"vi", "min7", true⟩
  | .S => ⟨"I", "maj7", true⟩
  | .PHRASE => ⟨"I", "maj7", true⟩

/-- `DerivationNode`: symbol, resolved key, the rule that expanded it
(absent for terminals and default-terminal fallbacks), owned children. -/
inductive DNode where
  | mk (sym : Symbol) (key : Nat) (ruleUsed : Option GrammarRule)
      (children : List DNode)

/-- The cumulative-sum scan of `PCFG::sampleRule`: return the first rule
whose running total reaches the draw, falling back to the last rule. -/
def pickCumulative : List GrammarRule → ℚ → ℚ → Option GrammarRule
  | [], _, _ => none
  | [r], _, _ => some r
  | r :: s :: rest, draw, cumsum =>
    if draw ≤ cumsum + r.prob then some r
    else pickCumulative (s :: rest) draw (cumsum + r.prob)

/-- `PCFG::sampleRule`, with the grammar's seeded `rng_` made explicit:
`gDraw` supplies the `uniform_real_distribution(0, total)` draws and
`gPick` the `uniform_int_distribution` draws of the all-zero-weight
fallback; `cg` counts how many distribution calls have consumed the
generator.  Returns `none` (the C++ `nullptr`) when the non-terminal has
no rules, without consuming a draw. -/
def sampleRule (g : NonTerminal → List GrammarRule) (gDraw : Nat → ℚ)
    (gPick : Nat → Nat) (nt : NonTerminal) (cg : Nat) :
    Option GrammarRule × Nat :=
  match g nt with
  | [] => (none, cg)
  | r :: rest =>
    let total := ((r :: rest).map (fun x => x.prob)).sum
    if total = 0 then
      (some ((r :: rest).get
        ⟨gPick cg % (r :: rest).length, Nat.mod_lt _ (Nat.succ_pos _)⟩),
       cg + 1)
    else
      (pickCumulative (r :: rest) (gDraw cg) 0, cg + 1)

mutual

/-- `HarmonyGenerator::derive`, with both random sources explicit:
`ambPick` models the `static std::mt19937` of the depth-limit branch
(one `uniform_int_distribution` draw per use, counted by the first
counter) and `gDraw`/`gPick` the grammar's seeded `rng_` (counted by the
second).  `fuel` is a recursion bound added for the embedding only: the
C++ recursion is unbounded and can diverge on a grammar whose
TERMINAL-kind rules contain non-terminals, so `none` marks fuel
exhaustion; every result that is `some` is the value the C++ code
computes. -/
def derive (g : NonTerminal → List GrammarRule) (maxDepth : Nat)
    (ambPick : Nat → Nat) (gDraw : Nat → ℚ) (gPick : Nat → Nat)
    (fuel : Nat) (sym : Symbol) (depth key : Nat) (ctrs : Nat × Nat) :
    Option (DNode × (Nat × Nat)) :=
  match fuel, sym, ctrs with
  | 0, _, _ => none
  | _ + 1, Symbol.term t, ctrs => some (DNode.mk (Symbol.term t) key none [], ctrs)
  | fuel + 1, Symbol.nt nts, (ca, cg) =>
    let currentKey := nts.key.getD key
    let sel : Option GrammarRule × Nat × Nat :=
      if maxDepth ≤ depth then
        match (g nts.nt).filter (fun r => r.ruleType = RuleType.TERMINAL) with
        | [] => (none, ca, cg)
        | r :: rest =>
          (some ((r :: rest).get
            ⟨ambPick ca % (r :: rest).length, Nat.mod_lt _ (Nat.succ_pos _)⟩),
           ca + 1, cg)
      else
        let s := sampleRule g gDraw gPick nts.nt cg
        (s.1, ca, s.2)
    match sel with
    | (none, ca2, cg2) =>
      some (DNode.mk (Symbol.nt nts) currentKey none
        [DNode.mk (Symbol.term (getDefaultTerminal nts.nt)) currentKey none []],
        (ca2, cg2))
    | (some rule, ca2, cg2) =>
      match deriveChildren g maxDepth ambPick gDraw gPick fuel rule.rhs depth
          currentKey (ca2, cg2) with
      | none => none
      | some (children, ctrs2) =>
        some (DNode.mk (Symbol.nt nts) currentKey (some rule) children, ctrs2)
termination_by (fuel, 0)

/-- The right-hand-side loop of `HarmonyGenerator::derive`: compute each
child's key (explicit key override for non-terminals; local modulation
for secondary-dominant terminals), rebuild non-terminal children with
the resolved key, and recurse at `depth + 1`. -/
def deriveChildren (g : NonTerminal → List GrammarRule) (maxDepth : Nat)
    (ambPick : Nat → Nat) (gDraw : Nat → ℚ) (gPick : Nat → Nat)
    (fuel : Nat) (syms : List Symbol) (depth currentKey : Nat)
    (ctrs : Nat × Nat) : Option (List DNode × (Nat × Nat)) :=
  match syms with
  | [] => some ([], ctrs)
  | rhsSym :: rest =>
    let childKey :=
      match rhsSym with
      | Symbol.nt childNts => childNts.key.getD currentKey
      | Symbol.term t =>
        if hasVSlash t.degree.data then
          (currentKey + degreeToSemitones
            (String.mk (afterFirstSlash t.degree.data))) % 12
        else currentKey
    let childSym :=
      match rhsSym with
      | Symbol.nt childNts => Symbol.nt ⟨childNts.nt, some childKey⟩
      | Symbol.term t => Symbol.term t
    match derive g maxDepth ambPick gDraw gPick fuel childSym (depth + 1)
        childKey ctrs with
    | none => none
    | some (childNode, ctrs2) =>
      match deriveChildren g maxDepth ambPick gDraw gPick fuel rest depth
          currentKey ctrs2 with
      | none => none
      | some (children, ctrs3) => some (childNode :: children, ctrs3)
termination_by (fuel, syms.length + 1)

end

/-- The all-zeros index stream for the embedded `uniform_int` draws. -/
def zeroPicks : Nat → Nat := fun _ => 0

/-- The everywhere-empty grammar. -/
def emptyGrammar : NonTerminal → List GrammarRule := fun _ => []

/-- C9: when the grammar has no rules at all for a non-terminal, `derive`
— at every depth, on both sides of the depth limit — returns a node
whose single child is the built-in default terminal for that
non-terminal, consuming no randomness; a chord is always produced. -/
theorem derive_default_on_missing_rules
    (g : NonTerminal → List GrammarRule) (maxDepth : Nat)
    (ambPick : Nat → Nat) (gDraw : Nat → ℚ) (gPick : Nat → Nat)
    (nt : NonTerminal) (okey : Option Nat) (fuel depth key ca cg : Nat)
    (h : g nt = []) :
    derive g maxDepth ambPick gDraw gPick (fuel + 1)
        (Symbol.nt ⟨nt, okey⟩) depth key (ca, cg) =
      some (DNode.mk (Symbol.nt ⟨nt, okey⟩) (okey.getD key) none
        [DNode.mk (Symbol.term (getDefaultTerminal nt)) (okey.getD key)
          none []],
        (ca, cg)) := by
  rw [derive]
  by_cases hd : maxDepth ≤ depth
  · simp [hd, h]
  · simp [hd, h, sampleRule]

/-- C9 witness: the empty grammar at the Tonic non-terminal. -/
theorem derive_default_on_missing_rules_witness :
    derive emptyGrammar 6 zeroPicks zeroDraws zeroPicks 1
        (Symbol.nt ⟨NonTerminal.T, none⟩) 0 0 (0, 0) =
      some (DNode.mk (Symbol.nt ⟨NonTerminal.T, none⟩) 0 none
        [DNode.mk (Symbol.term (getDefaultTerminal NonTerminal.T)) 0
          none []],
        (0, 0)) :=
  derive_default_on_missing_rules emptyGrammar 6 zeroPicks zeroDraws
    zeroPicks NonTerminal.T none 0 0 0 0 0 rfl

end JazzArchitect
